import Mathlib

/-!
Verification of the bookmark organization engine
(src/src/optimization/optimize_bookmarks.py together with src/config.py).

The Python code is shallowly embedded: dictionaries keyed by insertion
order become association lists, Python sets used only for membership
become lists queried by membership, and mutation becomes explicit state
passing.  The statistical clustering step (TfidfVectorizer +
AgglomerativeClustering) is external library code whose numeric output
the claims never constrain; it is abstracted as an `Option (List Nat)`
parameter: `some ls` models `fit_predict` succeeding with the label list
`ls` (one integer label per clustered bookmark), `none` models any
exception caught by the `except` block, which triggers the in-line
fallback path of `suggest_organization`.

Case mapping and character classification are modelled at the ASCII
level (the Lean `Char.toLower`, `Char.toUpper`, `Char.isAlpha`,
`Char.isWhitespace` functions), matching Python on the ASCII inputs the
repository works with.

The float thresholds `FOLDER_PATH_THRESHOLD = 0.4` and
`SECONDARY_WORD_THRESHOLD = 0.4` appear only in comparisons of the form
`count >= n * 0.4` with both counts natural numbers.  For every natural
n that is a multiple of 5, the double product `n * 0.4` rounds to
exactly 2n/5 (the representation error n*(0.4 - 2/5) = (2n/5)*2^-54 is
below half an ulp of 2n/5), and for other n the product lies within
1e-15 of the non-integer 2n/5, at distance at least 1/5 from every
integer, so the comparison against an integer count is exactly the
rational comparison count >= 2n/5.  It is therefore embedded as
`2 * n <= 5 * count`.
-/

namespace BookmarkOrg

/-! ## String helpers modelling Python string primitives -/

/-- Python `str.lower` (ASCII). -/
def pyLower (s : String) : String := String.mk (s.data.map Char.toLower)

/-- Python `str.capitalize`: first character upper-cased, all remaining
characters lower-cased (ASCII). -/
def pyCapitalize (s : String) : String :=
  match s.data with
  | [] => ""
  | c :: cs => String.mk (c.toUpper :: cs.map Char.toLower)

/-- Python `sep.join(parts)`. -/
def pyJoin (sep : String) (parts : List String) : String :=
  match parts with
  | [] => ""
  | x :: rest => rest.foldl (fun acc y => acc ++ sep ++ y) x

/-- List membership test for strings (Python `in` on a set or list of
strings; only membership is ever used, so set iteration order is
irrelevant). -/
def strMem (s : String) (l : List String) : Bool :=
  match l with
  | [] => false
  | x :: rest => if x = s then true else strMem s rest

/-- Whether `pat` occurs at the start of `l`. -/
def isPre (pat l : List Char) : Bool :=
  match pat, l with
  | [], _ => true
  | _ :: _, [] => false
  | a :: as, b :: bs => if a = b then isPre as bs else false

/-- Python substring containment `pat in s` on character lists
(the empty pattern is contained in everything, as in Python). -/
def subStr (pat l : List Char) : Bool :=
  if isPre pat l then true
  else
    match l with
    | [] => false
    | _ :: t => subStr pat t

/-- Whether `pat` occurs at the end of `l`. -/
def endsW (pat l : List Char) : Bool := isPre pat.reverse l.reverse

/-- Python `str.split()` (split on whitespace runs, dropping empty
tokens), on character lists. -/
def wsSplit (l : List Char) : List (List Char) :=
  (l.foldr
    (fun c acc =>
      if c.isWhitespace then [] :: acc
      else
        match acc with
        | [] => [[c]]
        | t :: ts => (c :: t) :: ts)
    [[]]).filter (fun t => !t.isEmpty)

/-- Python `str.split()` on strings. -/
def pySplitWs (s : String) : List String := (wsSplit s.data).map String.mk

/-! ## urllib.parse netloc extraction

Model of `urlparse(url).netloc` from CPython urllib.parse: an optional
`scheme:` prefix (first character alphabetic, remaining characters
alphanumeric or `+`/`-`/`.`) is removed; if the remainder starts with
`//`, the netloc is everything up to the next `/`, `?` or `#`, and a
`[` or `]` without its counterpart raises ValueError (modelled as
`none`); otherwise the netloc is the empty string. -/

def isSchemeChar (c : Char) : Bool := c.isAlpha || c.isDigit || c = '+' || c = '-' || c = '.'

def removeScheme (l : List Char) : List Char :=
  match l.findIdx? (· = ':') with
  | some i =>
    if 0 < i
        && (match l.head? with | some c => c.isAlpha | none => false)
        && (l.take i).all isSchemeChar
    then l.drop (i + 1)
    else l
  | none => l

def splitNetlocChars (l : List Char) : Option (List Char) :=
  if l.take 2 = ['/', '/'] then
    let nl := (l.drop 2).takeWhile fun c => !(c = '/' || c = '?' || c = '#')
    if (nl.contains '[' && !nl.contains ']') || (nl.contains ']' && !nl.contains '[') then none
    else some nl
  else some []

/-- `urlparse(url).netloc`; `none` models a raised ValueError. -/
def urlparseNetloc (s : String) : Option String :=
  (splitNetlocChars (removeScheme s.data)).map String.mk

/-! ## Domain normalization

`re.sub(r'^www\.|\.com$|\.org$|\.net$|\.edu$|\.gov$', '', domain)`.
re.sub removes all non-overlapping matches in one left-to-right scan:
at most one `www.` at the start and at most one of the five 4-character
suffixes at the end (after a removed `www.` prefix, a suffix match must
start at index >= 4 of the original string, which is exactly the
condition that the remainder still ends with that suffix), so the scan
equals stripping the prefix first and then one suffix. -/

def tldSuffixes : List (List Char) :=
  [".com".data, ".org".data, ".net".data, ".edu".data, ".gov".data]

def stripWww (l : List Char) : List Char :=
  if l.take 4 = "www.".data then l.drop 4 else l

def stripTldSuffix (l : List Char) : List Char :=
  if tldSuffixes.any (fun t => endsW t l) then l.take (l.length - 4) else l

def normalizeDomain (d : String) : String :=
  String.mk (stripTldSuffix (stripWww d.data))

/-! ## Configuration (src/config.py) -/

/-- `TOOL_DOMAINS` (a set used only for membership tests). -/
def TOOL_DOMAINS : List String :=
  ["google.com", "gmail.com", "github.com", "stackoverflow.com", "wikipedia.org"]

/-- `CLASS_KEYWORDS` (a set used only inside `any(...)`). -/
def CLASS_KEYWORDS : List String :=
  ["canvas", "class", "lecture", "homework", "assignment", "course", "syllabus"]

/-- `COMMON_WORDS` (a set used only for membership tests). -/
def COMMON_WORDS : List String :=
  ["the", "a", "an", "and", "or", "but", "in", "on", "at", "to", "for", "of", "with", "by",
   "this", "that", "these", "those", "is", "are", "was", "were", "be", "been", "being",
   "have", "has", "had", "do", "does", "did", "will", "would", "should", "could", "may",
   "might", "must", "can", "your", "my", "our", "their", "his", "her", "its", "com",
   "org", "net", "edu", "gov", "io", "www", "home", "page", "site", "official", "website"]

/-- `DOMAIN_CATEGORIES` in dictionary insertion order, which is the
iteration order of the fallback category loop. -/
def DOMAIN_CATEGORIES : List (String × Nat) :=
  [("google", 0), ("gmail", 0), ("youtube", 0),
   ("github", 1), ("gitlab", 1), ("bitbucket", 1),
   ("amazon", 2), ("ebay", 2), ("walmart", 2),
   ("facebook", 3), ("instagram", 3), ("twitter", 3),
   ("linkedin", 4), ("indeed", 4), ("glassdoor", 4),
   ("stackoverflow", 5), ("stackexchange", 5), ("quora", 5),
   ("reddit", 6), ("pinterest", 6), ("tumblr", 6),
   ("dropbox", 7), ("onedrive", 7), ("box", 7),
   ("netflix", 8), ("spotify", 8), ("hulu", 8),
   ("wikipedia", 9), ("scholar", 9), ("research", 9),
   ("news", 10), ("reuters", 10), ("bloomberg", 10),
   ("weather", 11), ("maps", 11), ("calendar", 11),
   ("bank", 12), ("paypal", 12), ("venmo", 12),
   ("health", 13), ("medical", 13), ("fitness", 13),
   ("travel", 14), ("booking", 14), ("airline", 14),
   ("default", 15)]

/-! ## Data model -/

/-- A bookmark record as produced by the extraction collaborator.  All
fields are present in the records the engine receives; `bookmark.get`
with a default therefore reads the field. -/
structure Bookmark where
  title : String
  url : String
  add_date : String
  last_modified : String
  icon : String
  folder_path : List String
deriving Repr, DecidableEq

/-- `FolderNode`: name, add_date, last_modified, bookmark list, and the
subfolder dictionary in insertion order (keys unique by construction,
as for a Python dict). -/
inductive FolderNode : Type where
  | mk (name add_date last_modified : String)
       (bookmarks : List Bookmark)
       (subfolders : List (String × FolderNode)) : FolderNode

def FolderNode.name : FolderNode → String
  | .mk n _ _ _ _ => n

def FolderNode.bookmarks : FolderNode → List Bookmark
  | .mk _ _ _ b _ => b

def FolderNode.subfolders : FolderNode → List (String × FolderNode)
  | .mk _ _ _ _ s => s

/-- Appending bookmarks to a folder: the effect of the
`for b in bookmarks: folder.add_bookmark(b.copy())` loops (a dict copy
is equal to the original record, so copying is the identity here). -/
def appendBookmarks : FolderNode → List Bookmark → FolderNode
  | .mk n a m bs subs, bks => .mk n a m (bs ++ bks) subs

/-- The combined effect of `folder = parent.get_subfolder(name)`
followed by appending `bks` to `folder`: the existing entry is updated
in place, or a fresh `FolderNode(name)` is appended at the end of the
dictionary. -/
def addToFolderList (subs : List (String × FolderNode)) (name : String)
    (bks : List Bookmark) : List (String × FolderNode) :=
  match subs with
  | [] => [(name, appendBookmarks (FolderNode.mk name "" "" [] []) bks)]
  | (n, node) :: rest =>
    if n = name then (n, appendBookmarks node bks) :: rest
    else (n, node) :: addToFolderList rest name bks

/-- Dictionary lookup among the subfolders. -/
def lookupName (subs : List (String × FolderNode)) (name : String) : Option FolderNode :=
  match subs with
  | [] => none
  | (n, node) :: rest => if n = name then some node else lookupName rest name

/-- The subfolder keys. -/
def keysOf (subs : List (String × FolderNode)) : List String := subs.map Prod.fst

/-- All bookmarks stored in cluster folders, i.e. in every subfolder
except "Bookmarks Bar", in dictionary order. -/
def clusterContent (subs : List (String × FolderNode)) : List Bookmark :=
  match subs with
  | [] => []
  | (n, node) :: rest =>
    if n = "Bookmarks Bar" then clusterContent rest
    else node.bookmarks ++ clusterContent rest

/-- The bookmark list of the "Bookmarks Bar" subfolder. -/
def barBookmarks (root : FolderNode) : List Bookmark :=
  match lookupName root.subfolders "Bookmarks Bar" with
  | some node => node.bookmarks
  | none => []

/-! ## Deduplicator

The first pass of `suggest_organization` skips every bookmark whose URL
is in `seen_urls` and records new URLs; `seen` accumulates the URL
set. -/

def dedupAux (seen : List String) : List Bookmark → List Bookmark
  | [] => []
  | b :: rest =>
    if strMem b.url seen then dedupAux seen rest
    else b :: dedupAux (b.url :: seen) rest

def dedupByUrl (l : List Bookmark) : List Bookmark := dedupAux [] l

/-! ## FeatureExtractor (the first pass of suggest_organization) -/

/-- The normalized domain of a URL: `urlparse(url).netloc` stripped of
`www.` and one of the common TLD suffixes; an exception gives the empty
string (lines 264 to 268). -/
def featureDomain (url : String) : String :=
  match urlparseNetloc url with
  | some h => normalizeDomain h
  | none => ""

/-- The text signature `f"{title} {domain} {folder_path}"` with the
title lower-cased and the folder path segments joined by spaces
(lines 263 to 274).  The two separating spaces of the f-string are
always present, whether or not the parts are empty. -/
def featureText (b : Bookmark) : String :=
  pyLower b.title ++ " " ++ featureDomain b.url ++ " " ++ pyJoin " " b.folder_path

/-! ## The helper clusterer methods (lines 94 to 149)

`_extract_domain_features` and `_fallback_domain_clustering` are the
table-driven fallback.  `suggest_organization` does not call either of
them (it re-implements feature extraction in-line and uses a different
fallback); they are embedded to settle the claims about the table
method.  The `domain_bookmarks` grouping returned alongside the
features is not used by any claim and is omitted. -/

/-- One feature string of `_extract_domain_features`:
`f"{domain} {title} {folder_path}"` (domain first, title NOT
lower-cased); a urlparse exception appends `""` instead. -/
def extract_domain_feature (b : Bookmark) : String :=
  match urlparseNetloc b.url with
  | some h =>
    normalizeDomain h ++ " " ++ b.title ++ " " ++ pyJoin " " b.folder_path
  | none => ""

/-- The category loop of `_fallback_domain_clustering`: starting from
`DOMAIN_CATEGORIES['default']`, the first key that is a substring of
the lower-cased pseudo-domain wins. -/
def categoryLookup (domain : String) : Nat :=
  match DOMAIN_CATEGORIES.find? (fun kv => subStr kv.1.data (pyLower domain).data) with
  | some kv => kv.2
  | none => 15

/-- One step of `_fallback_domain_clustering`:
`domain = feature.split()[0] if feature else "unknown"`; indexing an
empty split result raises IndexError (`none`). -/
def fallbackLabel (feature : String) : Option Nat :=
  if feature = "" then some (categoryLookup "unknown")
  else
    match pySplitWs feature with
    | [] => none
    | d :: _ => some (categoryLookup d)

/-- `_fallback_domain_clustering` over a feature list; an uncaught
IndexError aborts the whole computation. -/
def fallback_domain_clustering (features : List String) : Option (List Nat) :=
  features.mapM fallbackLabel

/-! ## ClusterNamer (_generate_cluster_name, lines 151 to 206) -/

/-- Insert one occurrence of a key into a tally kept in first-occurrence
order (a Python `defaultdict(int)` incremented in a loop). -/
def tallyAdd (l : List (String × Nat)) (k : String) : List (String × Nat) :=
  match l with
  | [] => [(k, 1)]
  | (k', c) :: rest =>
    if k' = k then (k', c + 1) :: rest else (k', c) :: tallyAdd rest k

/-- All lower-cased whitespace-split words of the titles, in bookmark
order. -/
def titleWords (bks : List Bookmark) : List String :=
  bks.flatMap fun b => pySplitWs (pyLower b.title)

/-- The domain tally and the lower-cased folder-path-segment tally of a
cluster.  A urlparse exception executes `continue`, skipping the folder
counting of that bookmark as well (lines 163 to 173). -/
def domainFolderTallies (bks : List Bookmark) :
    List (String × Nat) × List (String × Nat) :=
  bks.foldl
    (fun acc b =>
      match urlparseNetloc b.url with
      | none => acc
      | some h =>
        (tallyAdd acc.1 (normalizeDomain h),
         b.folder_path.foldl (fun t seg => tallyAdd t (pyLower seg)) acc.2))
    ([], [])

/-- The word tally: words that are not in `COMMON_WORDS` and have more
than 2 characters (lines 176 to 179). -/
def wordTally (ws : List String) : List (String × Nat) :=
  ws.foldl
    (fun t w => if strMem w COMMON_WORDS || w.data.length ≤ 2 then t else tallyAdd t w)
    []

/-- Stable insertion for descending order by count: a new entry goes
after every entry with a greater or equal count. -/
def insertDesc (x : String × Nat) : List (String × Nat) → List (String × Nat)
  | [] => [x]
  | y :: rest => if y.2 < x.2 then x :: y :: rest else y :: insertDesc x rest

/-- Python `sorted(items, key=count, reverse=True)`: stable descending
sort (insertion of each item in original order after all items with a
greater or equal count produces exactly the stable descending
ordering). -/
def sortDesc (l : List (String × Nat)) : List (String × Nat) :=
  l.foldl (fun acc x => insertDesc x acc) []

/-- Python `max(items, key=count)` on a tally: the first entry with the
maximal count (later entries replace the current best only when
strictly greater). -/
def firstMax (l : List (String × Nat)) : Option (String × Nat) :=
  l.foldl
    (fun acc x =>
      match acc with
      | none => some x
      | some m => if m.2 < x.2 then some x else some m)
    none

/-- Lines 189 to 206: the word-based name with secondary words, else
the domain fallback, else "Other". -/
def nameFromWords (top : List (String × Nat)) (domains : List (String × Nat)) : String :=
  match top with
  | [] =>
    match firstMax domains with
    | some d => pyCapitalize d.1
    | none => "Other"
  | (w, c) :: rest =>
    let primary := pyCapitalize w
    let secondary :=
      (rest.filter fun wc =>
        !subStr wc.1.data (pyLower primary).data && 2 * c ≤ 5 * wc.2).map
        fun wc => pyCapitalize wc.1
    if secondary.isEmpty then primary
    else primary ++ " & " ++ pyJoin " & " secondary

/-- `_generate_cluster_name`.  The folder-path branch fires when the
most frequent lower-cased segment reaches 40 percent of the cluster
size (occurrences counted with multiplicity); otherwise the word or
domain name is used. -/
def generate_cluster_name (bks : List Bookmark) : String :=
  match firstMax (domainFolderTallies bks).2 with
  | some mc =>
    if 2 * bks.length ≤ 5 * mc.2 then pyCapitalize mc.1
    else nameFromWords ((sortDesc (wordTally (titleWords bks))).take 3)
      (domainFolderTallies bks).1
  | none =>
    nameFromWords ((sortDesc (wordTally (titleWords bks))).take 3)
      (domainFolderTallies bks).1

/-! ## FrequentUseClassifier (_is_frequently_used, lines 208 to 235) -/

/-- The `try: domain = urlparse(url).netloc; if domain in TOOL_DOMAINS:
return True except: pass` pattern shared by the class-keyword branch and
the tool branch. -/
def toolDomainHit (url : String) : Bool :=
  match urlparseNetloc url with
  | some d => strMem d TOOL_DOMAINS
  | none => false

/-- `_is_frequently_used`.  The first branch tests
`bookmark.get('folder_path') and 'Bookmarks bar' in ...` (non-empty
list and membership); the remaining branches lower-case the title and
URL, and test the raw (un-normalized) netloc against TOOL_DOMAINS. -/
def is_frequently_used (b : Bookmark) : Bool :=
  if !b.folder_path.isEmpty && strMem "Bookmarks bar" b.folder_path then true
  else
    let title := pyLower b.title
    let url := pyLower b.url
    if (CLASS_KEYWORDS.any fun k => subStr k.data title.data || subStr k.data url.data)
        && toolDomainHit url then true
    else if toolDomainHit url then true
    else false

/-! ## FolderTreeBuilder (suggest_organization, lines 237 to 350) -/

/-- Group accumulation into a `defaultdict(list)`: keys in
first-occurrence order, each value appended at its key. -/
def groupUpdate {κ : Type} [DecidableEq κ] (l : List (κ × List Bookmark))
    (key : κ) (b : Bookmark) : List (κ × List Bookmark) :=
  match l with
  | [] => [(key, [b])]
  | (k, bs) :: rest =>
    if k = key then (k, bs ++ [b]) :: rest else (k, bs) :: groupUpdate rest key b

/-- The fallback grouping key (lines 310 to 316): the normalized domain,
or the literal key "Other" when urlparse raises. -/
def fallbackDomainKey (b : Bookmark) : String :=
  match urlparseNetloc b.url with
  | some h => normalizeDomain h
  | none => "Other"

/-- The second pass (lines 324 to 336): frequently used bookmarks, in
input order, deduplicated by URL within the Bookmarks Bar only (a URL
is recorded only when its bookmark is actually added). -/
def barSelect (seen : List String) : List Bookmark → List Bookmark
  | [] => []
  | b :: rest =>
    if strMem b.url seen then barSelect seen rest
    else if is_frequently_used b then b :: barSelect (b.url :: seen) rest
    else barSelect seen rest

/-- The initial subfolder dictionary: the root is created with the
"Bookmarks Bar" child (lines 239 to 242). -/
def barSubs0 : List (String × FolderNode) :=
  [("Bookmarks Bar", FolderNode.mk "Bookmarks Bar" "" "" [] [])]

/-- The cluster folders: on the primary path (labels available from
`fit_predict`) the unique bookmarks are zipped with their labels,
grouped by label, and each group is appended under its generated
name; on the fallback path they are grouped by normalized domain and
appended under the capitalized domain. -/
def clusterSubs (uniq : List Bookmark) (labels : Option (List Nat))
    (subs : List (String × FolderNode)) : List (String × FolderNode) :=
  match labels with
  | some ls =>
    ((uniq.zip ls).foldl (fun acc p => groupUpdate acc p.2 p.1) []).foldl
      (fun acc g => addToFolderList acc (generate_cluster_name g.2) g.2) subs
  | none =>
    (uniq.foldl (fun acc b => groupUpdate acc (fallbackDomainKey b) b) []).foldl
      (fun acc g => addToFolderList acc (pyCapitalize g.1) g.2) subs

/-- `suggest_organization`: deduplicate, build the cluster folders on
the primary or fallback path, then populate the Bookmarks Bar (the
`bookmarks_bar` object is the entry created first, so the second pass
appends to the "Bookmarks Bar" dictionary entry). -/
def suggest_organization (bookmarks : List Bookmark) (labels : Option (List Nat)) :
    FolderNode :=
  FolderNode.mk "root" "" "" []
    (addToFolderList (clusterSubs (dedupByUrl bookmarks) labels barSubs0)
      "Bookmarks Bar" (barSelect [] bookmarks))

/-! ## Concrete example inputs used by the theorems -/

/-- The first github bookmark of the example scenario of the spec. -/
def ghA : Bookmark := ⟨"My Repo", "https://github.com/a", "", "", "", []⟩

/-- The second github bookmark of the example scenario of the spec. -/
def ghB : Bookmark := ⟨"Other Repo", "https://github.com/b", "", "", "", []⟩

/-- The python bookmark of the example scenario of the spec. -/
def pyX : Bookmark := ⟨"Python Docs", "https://docs.python.org/x", "", "", "", []⟩

/-- The three-bookmark example input of the spec. -/
def exampleThree : List Bookmark := [ghA, ghB, pyX]

/-- A gitlab bookmark; the category table sends both github and gitlab
to category id 1 while the pipeline fallback separates them. -/
def glB : Bookmark := ⟨"Team Repo", "https://gitlab.com/b", "", "", "", []⟩

/-- A bookmark whose normalized host is `github.com` (an allow-list
entry) although its raw host `github.com.com` is not. -/
def bC2 : Bookmark := ⟨"", "https://github.com.com/a", "", "", "", []⟩

/-- A bookmark with an allow-listed host, used as a witness input. -/
def bGhW : Bookmark := ⟨"", "https://github.com/x", "", "", "", []⟩

/-- A frequently used bookmark (allow-listed host) that occupies a URL
in the Bookmarks Bar. -/
def bGh1 : Bookmark := ⟨"A", "https://github.com/x", "", "", "", []⟩

/-- A later bookmark with the same URL as `bGh1` whose folder path
contains "Bookmarks bar". -/
def bGh2 : Bookmark := ⟨"B", "https://github.com/x", "", "", "", ["Bookmarks bar"]⟩

/-- A bookmark whose folder path contains "Bookmarks bar" and whose URL
is not shared, used as a witness input. -/
def bBarOnly : Bookmark := ⟨"Hub", "https://example.com/h", "", "", "", ["Bookmarks bar"]⟩

/-- A cluster bookmark with only a folder path, for the naming claims. -/
def fpb (u : String) (fp : List String) : Bookmark := ⟨"", u, "", "", "", fp⟩

/-- Five bookmarks of which two (40 percent) share the folder segment
"recipes" while three share "misc". -/
def exC4bad : List Bookmark :=
  [fpb "u1" ["recipes"], fpb "u2" ["recipes"],
   fpb "u3" ["misc"], fpb "u4" ["misc"], fpb "u5" ["misc"]]

/-- Three bookmarks of which two share the folder segment "recipes",
which is also the most frequent segment. -/
def exC4good : List Bookmark :=
  [fpb "u1" ["recipes"], fpb "u2" ["recipes"], fpb "u3" ["misc"]]

/-- The all-empty bookmark. -/
def bEmptyC9 : Bookmark := ⟨"", "", "", "", "", []⟩

/-- A bookmark whose three signature components are all non-empty. -/
def bFullC9 : Bookmark := ⟨"My Repo", "https://github.com/a", "", "", "", ["Dev"]⟩

/-! ## Definitions written from the words of the claims, for comparison
with the embedded code -/

/-- Written from the words of claim C9: the space-joined concatenation
of the non-empty components, with empty or missing fields contributing
no token and no extra separator. -/
def featureTextClaimC9 (b : Bookmark) : String :=
  pyJoin " "
    (([pyLower b.title, featureDomain b.url, pyJoin " " b.folder_path]).filter
      fun s => if s = "" then false else true)

/-- Written from the words of claim C10: the classifier is claimed to
equal the disjunction of just the folder-path test and the allow-list
test on the host of the lower-cased URL. -/
def isFrequentlyUsedClaimC10 (b : Bookmark) : Bool :=
  strMem "Bookmarks bar" b.folder_path || toolDomainHit (pyLower b.url)

/-! ## Theorems -/

/-- C3: on the empty input, suggest_organization returns normally (both
when the clustering step succeeds with an empty label list and when it
raises and the fallback runs), and the resulting tree is the root named
"root" with exactly one subfolder, the empty "Bookmarks Bar" folder,
and no bookmarks anywhere. -/
theorem c3_empty_input (labels : Option (List Nat)) :
    suggest_organization [] labels =
      FolderNode.mk "root" "" "" []
        [("Bookmarks Bar", FolderNode.mk "Bookmarks Bar" "" "" [] [])] := by
  cases labels with
  | none => rfl
  | some ls => rfl

/-- C1 counterexample: the claim says the fallback path of the pipeline
assigns cluster labels by matching the first token of the signature
against the ordered domain-keyword table.  On the input of a github and
a gitlab bookmark the table assigns both the same category id 1 ("Code
hosting"), yet the fallback path of suggest_organization puts them into
two distinct sibling folders "Github" and "Gitlab" (it groups by
normalized domain and never consults the table), refuting the claim. -/
theorem c1_counterexample :
    fallback_domain_clustering ([ghA, glB].map extract_domain_feature) = some [1, 1]
    ∧ keysOf (suggest_organization [ghA, glB] none).subfolders
        = ["Bookmarks Bar", "Github", "Gitlab"]
    ∧ (lookupName (suggest_organization [ghA, glB] none).subfolders "Github").map
        FolderNode.bookmarks = some [ghA]
    ∧ (lookupName (suggest_organization [ghA, glB] none).subfolders "Gitlab").map
        FolderNode.bookmarks = some [glB] := by
  decide

/-- C1 amended: the table method lives in the helper
_fallback_domain_clustering, which on the features of the three-bookmark
example assigns both github bookmarks the "Code hosting" id 1 and the
docs.python.org bookmark the default id 15; but suggest_organization
never calls it: its fallback groups the deduplicated bookmarks by
normalized domain into folders named by the capitalized domain, here
"Github" (both github bookmarks) and "Docs.python". -/
theorem c1_amended :
    fallback_domain_clustering (exampleThree.map extract_domain_feature) = some [1, 1, 15]
    ∧ keysOf (suggest_organization exampleThree none).subfolders
        = ["Bookmarks Bar", "Github", "Docs.python"]
    ∧ (lookupName (suggest_organization exampleThree none).subfolders "Github").map
        FolderNode.bookmarks = some [ghA, ghB]
    ∧ (lookupName (suggest_organization exampleThree none).subfolders "Docs.python").map
        FolderNode.bookmarks = some [pyX] := by
  decide

/-- C2 counterexample: the bookmark with URL https://github.com.com/a
has normalized host "github.com", which is in the tool-domain
allow-list, yet the frequent-use classifier returns false (it tests the
raw host "github.com.com") and the Bookmarks Bar stays empty. -/
theorem c2_counterexample :
    strMem (featureDomain (pyLower bC2.url)) TOOL_DOMAINS = true
    ∧ is_frequently_used bC2 = false
    ∧ barBookmarks (suggest_organization [bC2] none) = [] := by
  decide

/-- C4 counterexample: in the five-bookmark cluster exC4bad exactly 40
percent of the bookmarks share the lower-cased folder segment
"recipes", yet the cluster-naming function returns "Misc", because
"misc" is the more frequent segment. -/
theorem c4_counterexample :
    2 * exC4bad.length ≤
        5 * (exC4bad.filter fun b => strMem "recipes" (b.folder_path.map pyLower)).length
    ∧ generate_cluster_name exC4bad = "Misc"
    ∧ generate_cluster_name exC4bad ≠ "Recipes" := by
  decide

/-- C7 counterexample: bGh2 has "Bookmarks bar" in its folder path, but
an earlier bookmark bGh1 with the same URL is frequently used, so the
Bookmarks Bar holds bGh1 and the record bGh2 appears nowhere in the
output (it is also dropped by deduplication before clustering). -/
theorem c7_counterexample :
    strMem "Bookmarks bar" bGh2.folder_path = true
    ∧ barBookmarks (suggest_organization [bGh1, bGh2] none) = [bGh1]
    ∧ bGh2 ∉ barBookmarks (suggest_organization [bGh1, bGh2] none)
    ∧ bGh2 ∉ clusterContent (suggest_organization [bGh1, bGh2] none).subfolders := by
  decide

/-- C9 counterexample: on the all-empty bookmark the signature produced
by the code is the two-space string (the f-string separators are always
present), not the empty string that the claimed no-extra-separator
space-joining yields. -/
theorem c9_counterexample :
    featureText bEmptyC9 = "  "
    ∧ featureTextClaimC9 bEmptyC9 = ""
    ∧ featureText bEmptyC9 ≠ featureTextClaimC9 bEmptyC9 := by
  decide

/-! ## Supporting lemmas: deduplication -/

theorem strMem_eq_true_iff (s : String) (l : List String) : strMem s l = true ↔ s ∈ l := by
  induction l with
  | nil => simp [strMem]
  | cons x rest ih =>
    by_cases hx : x = s
    · simp [strMem, hx]
    · simp [strMem, hx, ih, Ne.symm hx]

theorem dedupAux_sublist (seen : List String) (l : List Bookmark) :
    (dedupAux seen l).Sublist l := by
  induction l generalizing seen with
  | nil => simp [dedupAux]
  | cons b rest ih =>
    simp only [dedupAux]
    split
    · exact (ih seen).cons b
    · exact (ih _).cons₂ b

theorem dedupAux_url_not_seen (seen : List String) (l : List Bookmark) (b : Bookmark)
    (hb : b ∈ dedupAux seen l) : strMem b.url seen = false := by
  induction l generalizing seen with
  | nil => simp [dedupAux] at hb
  | cons x rest ih =>
    simp only [dedupAux] at hb
    split at hb
    · exact ih seen hb
    · rcases List.mem_cons.mp hb with h | h
      · subst h
        simpa using ‹¬ strMem b.url seen = true›
      · have := ih (x.url :: seen) h
        by_cases hx : x.url = b.url <;> simp [strMem, hx] at this ⊢
        exact this

theorem dedupAux_urls_nodup (seen : List String) (l : List Bookmark) :
    ((dedupAux seen l).map Bookmark.url).Nodup := by
  induction l generalizing seen with
  | nil => simp [dedupAux]
  | cons x rest ih =>
    simp only [dedupAux]
    split
    · exact ih seen
    · simp only [List.map_cons, List.nodup_cons]
      refine ⟨?_, ih _⟩
      intro hmem
      rcases List.mem_map.mp hmem with ⟨b, hb, hurl⟩
      have := dedupAux_url_not_seen _ _ _ hb
      simp [strMem, hurl] at this

theorem dedupAux_idem (l : List Bookmark) :
    ∀ seen, dedupAux seen (dedupAux seen l) = dedupAux seen l := by
  induction l with
  | nil => intro seen; rfl
  | cons x rest ih =>
    intro seen
    by_cases h : strMem x.url seen = true
    · simp only [dedupAux, h, if_true, ih seen]
    · simp only [dedupAux, h, if_false, Bool.false_eq_true]
      rw [ih (x.url :: seen)]

theorem dedupAux_seen_congr (l : List Bookmark) :
    ∀ s1 s2, (∀ u, strMem u s1 = strMem u s2) → dedupAux s1 l = dedupAux s2 l := by
  induction l with
  | nil => intros; rfl
  | cons x rest ih =>
    intro s1 s2 h
    simp only [dedupAux, h x.url]
    by_cases hx : strMem x.url s2 = true
    · simp only [hx, if_true, ih s1 s2 h]
    · simp only [hx, if_false, Bool.false_eq_true]
      have : ∀ u, strMem u (x.url :: s1) = strMem u (x.url :: s2) := by
        intro u
        by_cases hxu : x.url = u <;> simp [strMem, hxu, h u]
      rw [ih _ _ this]

theorem dedupAux_cons_filter (l : List Bookmark) :
    ∀ (seen : List String) (u : String),
      dedupAux (u :: seen) l = dedupAux seen (l.filter fun x => decide (x.url ≠ u)) := by
  induction l with
  | nil => intros; rfl
  | cons x rest ih =>
    intro seen u
    by_cases hxu : x.url = u
    · have h1 : strMem x.url (u :: seen) = true := by simp [strMem, hxu]
      have hskip : dedupAux (u :: seen) (x :: rest) = dedupAux (u :: seen) rest := by
        simp only [dedupAux, h1, if_true]
      have hfil : List.filter (fun x : Bookmark => decide (x.url ≠ u)) (x :: rest)
          = List.filter (fun x : Bookmark => decide (x.url ≠ u)) rest := by
        simp [List.filter_cons, hxu]
      rw [hskip, hfil]
      exact ih seen u
    · have hne : ¬ (u = x.url) := fun h => hxu h.symm
      have hcons : strMem x.url (u :: seen) = strMem x.url seen := by
        simp [strMem, hne]
      have hfil : List.filter (fun x : Bookmark => decide (x.url ≠ u)) (x :: rest)
          = x :: List.filter (fun x : Bookmark => decide (x.url ≠ u)) rest := by
        simp [List.filter_cons, hxu]
      rw [hfil]
      by_cases hs : strMem x.url seen = true
      · simp only [dedupAux, hcons, hs, if_true]
        exact ih seen u
      · simp only [dedupAux, hcons, hs, if_false, Bool.false_eq_true]
        have hswap : dedupAux (x.url :: u :: seen) rest = dedupAux (u :: x.url :: seen) rest := by
          apply dedupAux_seen_congr
          intro v
          by_cases h1 : x.url = v <;> by_cases h2 : u = v <;> simp [strMem, h1, h2]
        rw [hswap, ih (x.url :: seen) u]

/-- C8: deduplication keeps the unique-by-URL subsequence in original
order (a sublist of the input with pairwise distinct URLs), the head of
the input is always kept and every later occurrence of its URL is
discarded, and deduplicating a second time removes nothing. -/
theorem c8_dedup_contract (l : List Bookmark) :
    (dedupByUrl l).Sublist l
    ∧ ((dedupByUrl l).map Bookmark.url).Nodup
    ∧ (∀ (b : Bookmark) (t : List Bookmark),
        dedupByUrl (b :: t) = b :: dedupByUrl (t.filter fun x => decide (x.url ≠ b.url)))
    ∧ dedupByUrl (dedupByUrl l) = dedupByUrl l := by
  refine ⟨dedupAux_sublist [] l, dedupAux_urls_nodup [] l, ?_, dedupAux_idem l []⟩
  intro b t
  show dedupAux [] (b :: t) = _
  have h0 : strMem b.url [] = true ↔ False := by simp [strMem]
  simp only [dedupAux, h0, if_false, iff_false]
  rw [dedupAux_cons_filter]
  rfl

theorem is_frequently_used_eq_disjunction (b : Bookmark) :
    is_frequently_used b = isFrequentlyUsedClaimC10 b := by
  have h1 : ∀ fp : List String,
      (!List.isEmpty fp && strMem "Bookmarks bar" fp) = strMem "Bookmarks bar" fp := by
    intro fp; cases fp <;> simp [strMem]
  have h2 : ∀ kw hit : Bool,
      (if (kw && hit) = true then true else if hit = true then true else false) = hit := by
    decide
  simp only [is_frequently_used, isFrequentlyUsedClaimC10, h1, h2]
  cases hm : strMem "Bookmarks bar" b.folder_path <;> simp

/-- C10: the frequent-use classifier equals the disjunction of the
folder-path test and the allow-list test on the host of the lower-cased
URL; the class-keyword branch requires the same allow-list membership
that the final branch checks unconditionally, so it never changes the
outcome. -/
theorem c10_classifier_equiv (b : Bookmark) :
    is_frequently_used b = isFrequentlyUsedClaimC10 b :=
  is_frequently_used_eq_disjunction b

/-! ## Supporting lemmas: no generated cluster name collides with
"Bookmarks Bar" (Python str.capitalize lower-cases every character
after the first, so the capital B of "Bar" at position 10 cannot be
produced) -/

theorem char_toNat_ofNat_valid {m : Nat} (h : m < 55296) : (Char.ofNat m).toNat = m := by
  have hv : m.isValidChar := Or.inl h
  rw [Char.ofNat, dif_pos hv]
  simp [Char.ofNatAux, Char.toNat]
  rfl

theorem toLower_toNat_ne_66 (c : Char) : (Char.toLower c).toNat ≠ 66 := by
  by_cases h : c.toNat ≥ 65 ∧ c.toNat ≤ 90
  · have heq : Char.toLower c = Char.ofNat (c.toNat + 32) := by
      unfold Char.toLower
      simp only [if_pos h]
    rw [heq, char_toNat_ofNat_valid (by omega)]
    omega
  · have heq : Char.toLower c = c := by
      unfold Char.toLower
      simp only [if_neg h]
    rw [heq]
    omega

theorem toLower_ne_B (c : Char) : Char.toLower c ≠ 'B' := by
  intro h
  have := congrArg Char.toNat h
  exact toLower_toNat_ne_66 c this

theorem map_toLower_no_B (cs : List Char) : 'B' ∉ cs.map Char.toLower := by
  intro h
  rcases List.mem_map.mp h with ⟨c, _, hc⟩
  exact toLower_ne_B c hc

theorem pyCapitalize_ne_bar (s : String) : pyCapitalize s ≠ "Bookmarks Bar" := by
  unfold pyCapitalize
  cases hd : s.data with
  | nil =>
    intro h
    exact absurd (congrArg String.data h) (by decide)
  | cons c cs =>
    intro h
    have hdata : c.toUpper :: cs.map Char.toLower = "Bookmarks Bar".data :=
      congrArg String.data h
    have htl : cs.map Char.toLower = "ookmarks Bar".data := by
      have := congrArg List.tail hdata
      simpa using this
    have : 'B' ∈ cs.map Char.toLower := by
      rw [htl]; decide
    exact map_toLower_no_B cs this

theorem append_amp_ne_bar (a b : String) : a ++ " & " ++ b ≠ "Bookmarks Bar" := by
  intro h
  have hmem : '&' ∈ (a ++ " & " ++ b).data := by
    simp only [String.data_append]
    refine List.mem_append.mpr (Or.inl ?_)
    refine List.mem_append.mpr (Or.inr ?_)
    decide
  rw [h] at hmem
  revert hmem
  decide

theorem nameFromWords_ne_bar (top doms : List (String × Nat)) :
    nameFromWords top doms ≠ "Bookmarks Bar" := by
  unfold nameFromWords
  split
  · split
    · exact pyCapitalize_ne_bar _
    · decide
  · dsimp only
    split
    · exact pyCapitalize_ne_bar _
    · exact append_amp_ne_bar _ _

theorem generate_cluster_name_ne_bar (bks : List Bookmark) :
    generate_cluster_name bks ≠ "Bookmarks Bar" := by
  unfold generate_cluster_name
  split
  · split
    · exact pyCapitalize_ne_bar _
    · exact nameFromWords_ne_bar _ _
  · exact nameFromWords_ne_bar _ _

/-! ## Supporting lemmas: the subfolder dictionary -/

theorem appendBookmarks_bookmarks (v : FolderNode) (bks : List Bookmark) :
    (appendBookmarks v bks).bookmarks = v.bookmarks ++ bks := by
  cases v; rfl

theorem appendBookmarks_name (v : FolderNode) (bks : List Bookmark) :
    (appendBookmarks v bks).name = v.name := by
  cases v; rfl

theorem appendBookmarks_subfolders (v : FolderNode) (bks : List Bookmark) :
    (appendBookmarks v bks).subfolders = v.subfolders := by
  cases v; rfl

theorem lookupName_addToFolderList_ne (subs : List (String × FolderNode))
    (name : String) (bks : List Bookmark) (target : String) (h : name ≠ target) :
    lookupName (addToFolderList subs name bks) target = lookupName subs target := by
  induction subs with
  | nil => simp [addToFolderList, lookupName, h]
  | cons p rest ih =>
    obtain ⟨n, node⟩ := p
    simp only [addToFolderList]
    by_cases hn : n = name
    · rw [if_pos hn]
      have hnt : ¬ (n = target) := by rw [hn]; exact h
      simp [lookupName, hnt]
    · rw [if_neg hn]
      by_cases ht : n = target
      · simp [lookupName, ht]
      · simp [lookupName, ht, ih]

theorem lookupName_addToFolderList_same (subs : List (String × FolderNode))
    (name : String) (bks : List Bookmark) (node : FolderNode)
    (h : lookupName subs name = some node) :
    lookupName (addToFolderList subs name bks) name = some (appendBookmarks node bks) := by
  induction subs with
  | nil => simp [lookupName] at h
  | cons p rest ih =>
    obtain ⟨n, v⟩ := p
    by_cases hn : n = name
    · simp only [lookupName, if_pos hn, Option.some.injEq] at h
      simp [addToFolderList, lookupName, hn, h]
    · simp only [lookupName, if_neg hn] at h
      simp [addToFolderList, lookupName, hn, ih h]

theorem keysOf_addToFolderList (subs : List (String × FolderNode))
    (name : String) (bks : List Bookmark) :
    keysOf (addToFolderList subs name bks)
      = if name ∈ keysOf subs then keysOf subs else keysOf subs ++ [name] := by
  induction subs with
  | nil => simp [addToFolderList, keysOf]
  | cons p rest ih =>
    obtain ⟨n, v⟩ := p
    by_cases hn : n = name
    · simp [addToFolderList, keysOf, hn]
    · have hne : ¬ (name = n) := fun hh => hn hh.symm
      simp only [keysOf] at ih
      simp only [addToFolderList, if_neg hn, keysOf, List.map_cons]
      rw [ih]
      by_cases hm : name ∈ List.map Prod.fst rest
      · rw [if_pos hm, if_pos (List.mem_cons.mpr (Or.inr hm))]
      · rw [if_neg hm, if_neg (by simp [List.mem_cons, hne, hm]), List.cons_append]

theorem keysOf_addToFolderList_nodup (subs : List (String × FolderNode))
    (name : String) (bks : List Bookmark) (h : (keysOf subs).Nodup) :
    (keysOf (addToFolderList subs name bks)).Nodup := by
  rw [keysOf_addToFolderList]
  split
  · exact h
  · next hm =>
    exact List.Nodup.append h (List.nodup_singleton _)
      (by simpa [List.disjoint_singleton] using hm)

theorem keysOf_addToFolderList_mem (subs : List (String × FolderNode))
    (name : String) (bks : List Bookmark) (target : String) (h : target ∈ keysOf subs) :
    target ∈ keysOf (addToFolderList subs name bks) := by
  rw [keysOf_addToFolderList]
  split
  · exact h
  · exact List.mem_append.mpr (Or.inl h)

theorem addToFolderList_subfolders_nil (subs : List (String × FolderNode))
    (name : String) (bks : List Bookmark)
    (h : ∀ p ∈ subs, (Prod.snd p).subfolders = ([] : List (String × FolderNode))) :
    ∀ p ∈ addToFolderList subs name bks, (Prod.snd p).subfolders = [] := by
  induction subs with
  | nil =>
    intro p hp
    simp only [addToFolderList, List.mem_singleton] at hp
    subst hp
    rfl
  | cons q rest ih =>
    obtain ⟨n, v⟩ := q
    intro p hp
    simp only [addToFolderList] at hp
    by_cases hn : n = name
    · rw [if_pos hn] at hp
      rcases List.mem_cons.mp hp with h1 | h1
      · subst h1
        rw [appendBookmarks_subfolders]
        exact h (n, v) (List.mem_cons_self _ _)
      · exact h _ (List.mem_cons_of_mem _ h1)
    · rw [if_neg hn] at hp
      rcases List.mem_cons.mp hp with h1 | h1
      · subst h1
        exact h _ (List.mem_cons_self _ _)
      · exact ih (fun r hr => h r (List.mem_cons_of_mem _ hr)) p h1

theorem clusterContent_addToFolderList_ne (subs : List (String × FolderNode))
    (name : String) (bks : List Bookmark) (h : name ≠ "Bookmarks Bar") :
    (clusterContent (addToFolderList subs name bks)).Perm (clusterContent subs ++ bks) := by
  induction subs with
  | nil =>
    simp [addToFolderList, clusterContent, h, appendBookmarks,
      FolderNode.bookmarks]
  | cons q rest ih =>
    obtain ⟨n, v⟩ := q
    simp only [addToFolderList]
    by_cases hn : n = name
    · rw [if_pos hn]
      have hnb : ¬ (n = "Bookmarks Bar") := by rw [hn]; exact h
      simp only [clusterContent, if_neg hnb, appendBookmarks_bookmarks]
      simp only [List.append_assoc]
      exact List.Perm.append_left _ List.perm_append_comm
    · rw [if_neg hn]
      by_cases hb : n = "Bookmarks Bar"
      · simp only [clusterContent, if_pos hb]
        exact ih
      · simp only [clusterContent, if_neg hb]
        have := List.Perm.append_left v.bookmarks ih
        simpa [List.append_assoc] using this

theorem clusterContent_addToFolderList_bar (subs : List (String × FolderNode))
    (bks : List Bookmark) :
    clusterContent (addToFolderList subs "Bookmarks Bar" bks) = clusterContent subs := by
  induction subs with
  | nil => simp [addToFolderList, clusterContent]
  | cons q rest ih =>
    obtain ⟨n, v⟩ := q
    simp only [addToFolderList]
    by_cases hn : n = "Bookmarks Bar"
    · rw [if_pos hn]
      simp [clusterContent, hn]
    · rw [if_neg hn]
      simp [clusterContent, hn, ih]

/-! ## Supporting lemmas: folding group lists into the subfolder
dictionary -/

theorem lookupName_foldl_add {α : Type} (f : α → String) (g : α → List Bookmark)
    (gs : List α) (subs : List (String × FolderNode))
    (h : ∀ a ∈ gs, f a ≠ "Bookmarks Bar") :
    lookupName (gs.foldl (fun acc a => addToFolderList acc (f a) (g a)) subs)
        "Bookmarks Bar"
      = lookupName subs "Bookmarks Bar" := by
  induction gs generalizing subs with
  | nil => rfl
  | cons a rest ih =>
    simp only [List.foldl_cons]
    rw [ih _ (fun x hx => h x (List.mem_cons_of_mem _ hx)),
      lookupName_addToFolderList_ne _ _ _ _ (h a (List.mem_cons_self _ _))]

theorem clusterContent_foldl_add {α : Type} (f : α → String) (g : α → List Bookmark)
    (gs : List α) (subs : List (String × FolderNode))
    (h : ∀ a ∈ gs, f a ≠ "Bookmarks Bar") :
    (clusterContent (gs.foldl (fun acc a => addToFolderList acc (f a) (g a)) subs)).Perm
      (clusterContent subs ++ gs.flatMap g) := by
  induction gs generalizing subs with
  | nil => simp
  | cons a rest ih =>
    simp only [List.foldl_cons, List.flatMap_cons]
    have h1 := ih (addToFolderList subs (f a) (g a))
      (fun x hx => h x (List.mem_cons_of_mem _ hx))
    have h2 := clusterContent_addToFolderList_ne subs (f a) (g a)
      (h a (List.mem_cons_self _ _))
    refine h1.trans ?_
    have h3 := h2.append_right (rest.flatMap g)
    refine h3.trans ?_
    simp [List.append_assoc]

theorem keysOf_foldl_add_nodup {α : Type} (f : α → String) (g : α → List Bookmark)
    (gs : List α) (subs : List (String × FolderNode))
    (h : (keysOf subs).Nodup) :
    (keysOf (gs.foldl (fun acc a => addToFolderList acc (f a) (g a)) subs)).Nodup := by
  induction gs generalizing subs with
  | nil => exact h
  | cons a rest ih =>
    simp only [List.foldl_cons]
    exact ih _ (keysOf_addToFolderList_nodup _ _ _ h)

theorem keysOf_foldl_add_mem {α : Type} (f : α → String) (g : α → List Bookmark)
    (gs : List α) (subs : List (String × FolderNode)) (target : String)
    (h : target ∈ keysOf subs) :
    target ∈ keysOf (gs.foldl (fun acc a => addToFolderList acc (f a) (g a)) subs) := by
  induction gs generalizing subs with
  | nil => exact h
  | cons a rest ih =>
    simp only [List.foldl_cons]
    exact ih _ (keysOf_addToFolderList_mem _ _ _ _ h)

theorem subfolders_nil_foldl_add {α : Type} (f : α → String) (g : α → List Bookmark)
    (gs : List α) (subs : List (String × FolderNode))
    (h : ∀ p ∈ subs, (Prod.snd p).subfolders = ([] : List (String × FolderNode))) :
    ∀ p ∈ gs.foldl (fun acc a => addToFolderList acc (f a) (g a)) subs,
      (Prod.snd p).subfolders = [] := by
  induction gs generalizing subs with
  | nil => exact h
  | cons a rest ih =>
    simp only [List.foldl_cons]
    exact ih _ (addToFolderList_subfolders_nil _ _ _ h)

theorem groupUpdate_flat_perm {κ : Type} [DecidableEq κ]
    (acc : List (κ × List Bookmark)) (k : κ) (b : Bookmark) :
    ((groupUpdate acc k b).flatMap Prod.snd).Perm ((acc.flatMap Prod.snd) ++ [b]) := by
  induction acc with
  | nil => simp [groupUpdate]
  | cons q rest ih =>
    obtain ⟨k', bs⟩ := q
    simp only [groupUpdate]
    by_cases hk : k' = k
    · rw [if_pos hk]
      simp only [List.flatMap_cons, List.append_assoc]
      exact List.Perm.append_left _ List.perm_append_comm
    · rw [if_neg hk]
      simp only [List.flatMap_cons]
      have := List.Perm.append_left bs ih
      simpa [List.append_assoc] using this

theorem foldl_groupUpdate_flat_perm {κ : Type} [DecidableEq κ] {α : Type}
    (key : α → κ) (val : α → Bookmark) (ps : List α)
    (acc : List (κ × List Bookmark)) :
    ((ps.foldl (fun a p => groupUpdate a (key p) (val p)) acc).flatMap Prod.snd).Perm
      ((acc.flatMap Prod.snd) ++ ps.map val) := by
  induction ps generalizing acc with
  | nil => simp
  | cons p rest ih =>
    simp only [List.foldl_cons, List.map_cons]
    have h1 := ih (groupUpdate acc (key p) (val p))
    have h2 := (groupUpdate_flat_perm acc (key p) (val p)).append_right (rest.map val)
    refine h1.trans (h2.trans ?_)
    simp [List.append_assoc]

/-! ## Supporting lemmas: the assembled tree -/

theorem clusterContent_barSubs0 : clusterContent barSubs0 = [] := by
  simp [barSubs0, clusterContent]

theorem lookupName_clusterSubs_bar (uniq : List Bookmark) (labels : Option (List Nat)) :
    lookupName (clusterSubs uniq labels barSubs0) "Bookmarks Bar"
      = some (FolderNode.mk "Bookmarks Bar" "" "" [] []) := by
  cases labels with
  | some ls =>
    exact (lookupName_foldl_add (fun g : Nat × List Bookmark => generate_cluster_name g.2)
      (fun g => g.2) _ _ (fun a _ => generate_cluster_name_ne_bar a.2)).trans rfl
  | none =>
    exact (lookupName_foldl_add (fun g : String × List Bookmark => pyCapitalize g.1)
      (fun g => g.2) _ _ (fun a _ => pyCapitalize_ne_bar a.1)).trans rfl

theorem barBookmarks_suggest_organization (bks : List Bookmark) (labels : Option (List Nat)) :
    barBookmarks (suggest_organization bks labels) = barSelect [] bks := by
  unfold suggest_organization barBookmarks
  simp only [FolderNode.subfolders]
  rw [lookupName_addToFolderList_same _ _ _ _
    (lookupName_clusterSubs_bar (dedupByUrl bks) labels)]
  simp [appendBookmarks, FolderNode.bookmarks]

/-- C6: the tree returned by suggest_organization has root named
"root", always has a "Bookmarks Bar" subfolder (even with zero
frequently used bookmarks), its sibling folder names are unique, and no
deeper folders exist (so sibling uniqueness holds throughout the
tree). -/
theorem c6_tree_invariants (bks : List Bookmark) (labels : Option (List Nat)) :
    (suggest_organization bks labels).name = "root"
    ∧ (∃ node, lookupName (suggest_organization bks labels).subfolders "Bookmarks Bar"
          = some node ∧ node.name = "Bookmarks Bar")
    ∧ (keysOf (suggest_organization bks labels).subfolders).Nodup
    ∧ ∀ p ∈ (suggest_organization bks labels).subfolders,
        (Prod.snd p).subfolders = ([] : List (String × FolderNode)) := by
  refine ⟨rfl, ?_, ?_, ?_⟩
  · refine ⟨appendBookmarks (FolderNode.mk "Bookmarks Bar" "" "" [] [])
      (barSelect [] bks), ?_, ?_⟩
    · exact lookupName_addToFolderList_same _ _ _ _
        (lookupName_clusterSubs_bar (dedupByUrl bks) labels)
    · rw [appendBookmarks_name]
      rfl
  · show (keysOf (addToFolderList (clusterSubs (dedupByUrl bks) labels barSubs0)
      "Bookmarks Bar" (barSelect [] bks))).Nodup
    apply keysOf_addToFolderList_nodup
    cases labels with
    | some ls =>
      exact keysOf_foldl_add_nodup (fun g : Nat × List Bookmark => generate_cluster_name g.2)
        (fun g => g.2) _ _ (List.nodup_singleton "Bookmarks Bar")
    | none =>
      exact keysOf_foldl_add_nodup (fun g : String × List Bookmark => pyCapitalize g.1)
        (fun g => g.2) _ _ (List.nodup_singleton "Bookmarks Bar")
  · show ∀ p ∈ addToFolderList (clusterSubs (dedupByUrl bks) labels barSubs0)
      "Bookmarks Bar" (barSelect [] bks), (Prod.snd p).subfolders = []
    apply addToFolderList_subfolders_nil
    have h0 : ∀ p ∈ barSubs0, (Prod.snd p).subfolders = ([] : List (String × FolderNode)) := by
      intro p hp
      simp only [barSubs0, List.mem_singleton] at hp
      subst hp
      rfl
    cases labels with
    | some ls =>
      exact subfolders_nil_foldl_add (fun g : Nat × List Bookmark => generate_cluster_name g.2)
        (fun g => g.2) _ _ h0
    | none =>
      exact subfolders_nil_foldl_add (fun g : String × List Bookmark => pyCapitalize g.1)
        (fun g => g.2) _ _ h0

/-- C5: on both the primary clustering path (any label list of the
right length) and the fallback path, the bookmarks stored in the
cluster folders under root (Bookmarks Bar excluded) are a permutation
of the deduplicated input, so every unique bookmark appears exactly
once in them. -/
theorem c5_cluster_partition (bks : List Bookmark) (labels : Option (List Nat))
    (h : ∀ ls, labels = some ls → ls.length = (dedupByUrl bks).length) :
    (clusterContent (suggest_organization bks labels).subfolders).Perm (dedupByUrl bks)
    ∧ ∀ b ∈ dedupByUrl bks,
        (clusterContent (suggest_organization bks labels).subfolders).count b = 1 := by
  have hperm : (clusterContent (suggest_organization bks labels).subfolders).Perm
      (dedupByUrl bks) := by
    have hsub : (suggest_organization bks labels).subfolders
        = addToFolderList (clusterSubs (dedupByUrl bks) labels barSubs0)
          "Bookmarks Bar" (barSelect [] bks) := rfl
    rw [hsub, clusterContent_addToFolderList_bar]
    cases labels with
    | some ls =>
      have hlen := h ls rfl
      have h1 := clusterContent_foldl_add
        (fun g : Nat × List Bookmark => generate_cluster_name g.2) (fun g => g.2)
        (((dedupByUrl bks).zip ls).foldl (fun acc p => groupUpdate acc p.2 p.1) [])
        barSubs0 (fun a _ => generate_cluster_name_ne_bar a.2)
      have h2 := foldl_groupUpdate_flat_perm (Prod.snd : Bookmark × Nat → Nat)
        Prod.fst ((dedupByUrl bks).zip ls) []
      have h3 : ((dedupByUrl bks).zip ls).map Prod.fst = dedupByUrl bks :=
        List.map_fst_zip _ _ (Nat.le_of_eq hlen.symm)
      simp only [List.flatMap_nil, List.nil_append, h3] at h2
      refine h1.trans ?_
      rw [clusterContent_barSubs0, List.nil_append]
      exact h2
    | none =>
      have h1 := clusterContent_foldl_add
        (fun g : String × List Bookmark => pyCapitalize g.1) (fun g => g.2)
        ((dedupByUrl bks).foldl (fun acc b => groupUpdate acc (fallbackDomainKey b) b) [])
        barSubs0 (fun a _ => pyCapitalize_ne_bar a.1)
      have h2 := foldl_groupUpdate_flat_perm fallbackDomainKey
        (fun b : Bookmark => b) (dedupByUrl bks) []
      simp only [List.flatMap_nil, List.nil_append, List.map_id'] at h2
      refine h1.trans ?_
      rw [clusterContent_barSubs0, List.nil_append]
      exact h2
  refine ⟨hperm, ?_⟩
  intro b hb
  rw [hperm.count_eq]
  have hnd : (dedupByUrl bks).Nodup :=
    List.Nodup.of_map Bookmark.url (dedupAux_urls_nodup [] bks)
  exact List.count_eq_one_of_mem hnd hb

/-! ## Supporting lemmas: the Bookmarks Bar selection -/

theorem barSelect_url_of_mem (b : Bookmark) (l : List Bookmark) :
    ∀ seen : List String, b ∈ l → is_frequently_used b = true →
      strMem b.url seen = true
      ∨ ∃ x, x ∈ barSelect seen l ∧ x.url = b.url := by
  induction l with
  | nil => intro seen hmem; exact absurd hmem (List.not_mem_nil b)
  | cons x rest ih =>
    intro seen hmem hfreq
    rcases List.mem_cons.mp hmem with hbx | hbr
    · subst hbx
      by_cases h1 : strMem b.url seen = true
      · exact Or.inl h1
      · simp only [barSelect, h1, if_false, Bool.false_eq_true, hfreq, if_true]
        exact Or.inr ⟨b, List.mem_cons_self _ _, rfl⟩
    · by_cases h1 : strMem x.url seen = true
      · simp only [barSelect, h1, if_true]
        exact ih seen hbr hfreq
      · by_cases h2 : is_frequently_used x = true
        · simp only [barSelect, h1, if_false, Bool.false_eq_true, h2, if_true]
          rcases ih (x.url :: seen) hbr hfreq with hseen | ⟨y, hy, hyu⟩
          · by_cases hxu : x.url = b.url
            · exact Or.inr ⟨x, List.mem_cons_self _ _, hxu⟩
            · simp only [strMem, hxu, if_false] at hseen
              exact Or.inl hseen
          · exact Or.inr ⟨y, List.mem_cons_of_mem _ hy, hyu⟩
        · simp only [barSelect, h1, if_false, Bool.false_eq_true, h2]
          exact ih seen hbr hfreq

theorem barSelect_mem_of_fresh (b : Bookmark) (post : List Bookmark) :
    ∀ (pre : List Bookmark) (seen : List String),
      is_frequently_used b = true →
      strMem b.url seen = false →
      (∀ x ∈ pre, x.url ≠ b.url) →
      b ∈ barSelect seen (pre ++ b :: post) := by
  intro pre
  induction pre with
  | nil =>
    intro seen hfreq hseen _
    simp only [List.nil_append, barSelect, hseen, if_false, Bool.false_eq_true,
      hfreq, if_true]
    exact List.mem_cons_self _ _
  | cons x rest ih =>
    intro seen hfreq hseen hpre
    have hxb : x.url ≠ b.url := hpre x (List.mem_cons_self _ _)
    have hrest : ∀ y ∈ rest, y.url ≠ b.url :=
      fun y hy => hpre y (List.mem_cons_of_mem _ hy)
    simp only [List.cons_append, barSelect]
    by_cases h1 : strMem x.url seen = true
    · simp only [h1, if_true]
      exact ih seen hfreq hseen hrest
    · simp only [h1, if_false, Bool.false_eq_true]
      by_cases h2 : is_frequently_used x = true
      · simp only [h2, if_true]
        have hseen2 : strMem b.url (x.url :: seen) = false := by
          simp only [strMem, hxb, if_false]
          exact hseen
        exact List.mem_cons_of_mem _ (ih (x.url :: seen) hfreq hseen2 hrest)
      · simp only [h2]
        exact ih seen hfreq hseen hrest

/-- C2 amended: the classifier promotes a bookmark whenever the raw
host of its lower-cased URL (urlparse netloc, with no www or TLD
normalization) is in the tool-domain allow-list, and then a bookmark
with that URL is placed in the Bookmarks Bar folder; the allow-list is
matched against the raw host, not the normalized host the claim
names. -/
theorem c2_amended (bks : List Bookmark) (b : Bookmark) (labels : Option (List Nat))
    (hmem : b ∈ bks) (hdom : toolDomainHit (pyLower b.url) = true) :
    is_frequently_used b = true
    ∧ ∃ x, x ∈ barBookmarks (suggest_organization bks labels) ∧ x.url = b.url := by
  have hfreq : is_frequently_used b = true := by
    rw [is_frequently_used_eq_disjunction]
    simp [isFrequentlyUsedClaimC10, hdom]
  refine ⟨hfreq, ?_⟩
  rw [barBookmarks_suggest_organization]
  rcases barSelect_url_of_mem b bks [] hmem hfreq with hseen | hx
  · simp [strMem] at hseen
  · exact hx

/-- C7 amended: a bookmark whose folder path contains the literal
segment "Bookmarks bar" appears in the output Bookmarks Bar folder
provided no earlier input bookmark shares its URL; an earlier
frequently used bookmark with the same URL would occupy the URL slot
instead (the Bookmarks Bar is deduplicated by URL), in which case a
bookmark with the same URL still appears. -/
theorem c7_amended (pre post : List Bookmark) (b : Bookmark)
    (labels : Option (List Nat))
    (hfp : strMem "Bookmarks bar" b.folder_path = true)
    (hpre : ∀ x ∈ pre, x.url ≠ b.url) :
    b ∈ barBookmarks (suggest_organization (pre ++ b :: post) labels) := by
  have hfreq : is_frequently_used b = true := by
    rw [is_frequently_used_eq_disjunction]
    simp [isFrequentlyUsedClaimC10, hfp]
  rw [barBookmarks_suggest_organization]
  exact barSelect_mem_of_fresh b post pre [] hfreq rfl hpre

/-- C4 amended: the cluster-naming function returns "Recipes" for every
non-empty cluster in which "recipes" is the most frequent lower-cased
folder-path segment (first-encountered on ties, occurrences counted
with multiplicity) and its count reaches 40 percent of the cluster
size; without the most-frequent condition a more frequent other segment
wins, as the counterexample shows. -/
theorem c4_amended (bks : List Bookmark) (c : Nat)
    (hne : bks ≠ [])
    (hmax : firstMax (domainFolderTallies bks).2 = some ("recipes", c))
    (hthr : 2 * bks.length ≤ 5 * c) :
    generate_cluster_name bks = "Recipes" := by
  unfold generate_cluster_name
  rw [hmax]
  simp only [if_pos hthr]
  rfl

/-- C9 amended: the text signature is the lower-cased title, the
normalized domain (empty on a parse failure) and the space-joined
folder path, joined with two always-present separating spaces; when all
three components are non-empty this equals the claimed space-joined
concatenation of the non-empty components, but empty components still
leave their separator behind. -/
theorem c9_amended (b : Bookmark) :
    featureText b
        = pyLower b.title ++ " " ++ featureDomain b.url ++ " "
          ++ pyJoin " " b.folder_path
    ∧ (pyLower b.title ≠ "" → featureDomain b.url ≠ "" →
        pyJoin " " b.folder_path ≠ "" →
        featureText b = featureTextClaimC9 b) := by
  refine ⟨rfl, ?_⟩
  intro h1 h2 h3
  unfold featureTextClaimC9
  rw [List.filter_cons_of_pos (by simp [h1]),
    List.filter_cons_of_pos (by simp [h2]),
    List.filter_cons_of_pos (by simp [h3]),
    List.filter_nil]
  rfl

/-! ## Witnesses -/

/-- Witness for c5_cluster_partition at a concrete two-bookmark input
on the primary path with labels [0, 1]. -/
theorem c5_witness :
    (∀ ls, (some [0, 1] : Option (List Nat)) = some ls →
        ls.length = (dedupByUrl [bGh1, bBarOnly]).length)
    ∧ ((clusterContent (suggest_organization [bGh1, bBarOnly]
          (some [0, 1])).subfolders).Perm (dedupByUrl [bGh1, bBarOnly])
      ∧ ∀ b ∈ dedupByUrl [bGh1, bBarOnly],
          (clusterContent (suggest_organization [bGh1, bBarOnly]
            (some [0, 1])).subfolders).count b = 1) :=
  ⟨fun ls hls => by cases hls; decide,
   c5_cluster_partition [bGh1, bBarOnly] (some [0, 1])
     (fun ls hls => by cases hls; decide)⟩

/-- Witness for c2_amended at the concrete allow-listed bookmark. -/
theorem c2_witness :
    (bGhW ∈ [bGhW] ∧ toolDomainHit (pyLower bGhW.url) = true)
    ∧ (is_frequently_used bGhW = true
      ∧ ∃ x, x ∈ barBookmarks (suggest_organization [bGhW] none)
          ∧ x.url = bGhW.url) :=
  ⟨⟨by decide, by decide⟩, c2_amended [bGhW] bGhW none (by decide) (by decide)⟩

/-- Witness for c7_amended at a concrete bookmark with "Bookmarks bar"
in its folder path and no earlier URL duplicate. -/
theorem c7_witness :
    (strMem "Bookmarks bar" bBarOnly.folder_path = true
      ∧ ∀ x ∈ ([] : List Bookmark), x.url ≠ bBarOnly.url)
    ∧ bBarOnly ∈ barBookmarks (suggest_organization ([] ++ bBarOnly :: []) none) :=
  ⟨⟨by decide, by simp⟩, c7_amended [] [] bBarOnly none (by decide) (by simp)⟩

/-- Witness for c4_amended at the concrete three-bookmark cluster in
which "recipes" is the most frequent folder segment with count 2. -/
theorem c4_witness :
    (exC4good ≠ []
      ∧ firstMax (domainFolderTallies exC4good).2 = some ("recipes", 2)
      ∧ 2 * exC4good.length ≤ 5 * 2)
    ∧ generate_cluster_name exC4good = "Recipes" :=
  ⟨⟨by decide, by decide, by decide⟩,
   c4_amended exC4good 2 (by decide) (by decide) (by decide)⟩

/-- Witness for c9_amended at a concrete bookmark whose three signature
components are all non-empty. -/
theorem c9_witness :
    (pyLower bFullC9.title ≠ "" ∧ featureDomain bFullC9.url ≠ ""
      ∧ pyJoin " " bFullC9.folder_path ≠ "")
    ∧ featureText bFullC9 = featureTextClaimC9 bFullC9 :=
  ⟨⟨by decide, by decide, by decide⟩,
   (c9_amended bFullC9).2 (by decide) (by decide) (by decide)⟩

end BookmarkOrg
